import Mathlib

/-!
Verification of the event-level clustering and statistics engine of
ProtoDUNENeutronCaptureTools (src/clustering/neutron_clustering.py),
shallowly embedded in Lean 4.  Machine floats are modelled as exact
rationals, the numpy and csv primitives by executable Lean functions, and
the sklearn estimators themselves (black boxes per the design) by oracle
function parameters.  Fallible code returns Except, mirroring Python
exceptions.
-/

/-- Truncation toward zero: the semantics of Python int() on a number. -/
def truncQ (q : ℚ) : ℤ := if 0 ≤ q then ⌊q⌋ else -⌊-q⌋

/-- Round half to even: the semantics of Python round(x) to an integer. -/
def roundHalfEven (q : ℚ) : ℤ :=
  let f := ⌊q⌋
  let r := q - (f : ℚ)
  if r < 1/2 then f
  else if 1/2 < r then f + 1
  else if f % 2 = 0 then f else f + 1

/-- Python round(x, 2): round to two decimal places, half to even. -/
def round2 (q : ℚ) : ℚ := ((roundHalfEven (100 * q) : ℤ) : ℚ) / 100

/-- Summed deposited energy of the truth group with id c inside one event:
np.where(truth == cluster) followed by sum(edep_energy[indices]) in
calculate_capture_ratio. -/
def groupEnergy (truth : List ℤ) (energy : List ℚ) (c : ℤ) : ℚ :=
  (((truth.zip energy).filter (fun p => p.1 == c)).map Prod.snd).sum

/-- Per-event body of NeutronClusteringMCTruth.calculate_capture_ratio:
clusters = np.unique(truth); total counts the distinct truth-group ids and
complete counts those whose summed energy rounds (2 decimals) to 6.1. -/
def eventCaptureCounts (truth : List ℤ) (energy : List ℚ) : ℕ × ℕ :=
  let clusters := truth.dedup
  (clusters.length,
   (clusters.filter
      (fun c => decide (round2 (groupEnergy truth energy c) = 61/10))).length)

inductive CaptureErr where
  | divisionError
deriving DecidableEq, Repr

/-- NeutronClusteringMCTruth.calculate_capture_ratio: one (total, complete)
pair per event, then capture_ratio = round((sum complete / sum total)*100).
A zero total sum raises ZeroDivisionError in Python, modelled as an error. -/
def calculate_capture_ratio (events : List (List ℤ × List ℚ)) :
    Except CaptureErr (List ℕ × List ℕ × ℤ) :=
  let num_captures := events.map (fun ev => (eventCaptureCounts ev.1 ev.2).1)
  let num_complete_captures :=
    events.map (fun ev => (eventCaptureCounts ev.1 ev.2).2)
  if num_captures.sum = 0 then
    .error .divisionError
  else
    .ok (num_captures, num_complete_captures,
      roundHalfEven
        (((num_complete_captures.sum : ℕ) : ℚ) / ((num_captures.sum : ℕ) : ℚ)
          * 100))

/-- Rounding the characteristic capture energy 6.1 to two decimals leaves it
fixed, so groups summing to exactly 6.1 MeV count as complete. -/
lemma round2_capture_energy : round2 (61/10) = 61/10 := by
  norm_num [round2, roundHalfEven]

/-- roundHalfEven never rounds a nonnegative number below zero. -/
lemma roundHalfEven_nonneg (q : ℚ) (h : 0 ≤ q) : 0 ≤ roundHalfEven q := by
  have hf : 0 ≤ ⌊q⌋ := Int.floor_nonneg.mpr h
  simp only [roundHalfEven]
  split_ifs <;> omega

/-- roundHalfEven never rounds above an integer upper bound. -/
lemma roundHalfEven_le (q : ℚ) (n : ℤ) (h : q ≤ (n : ℚ)) :
    roundHalfEven q ≤ n := by
  have hf : ⌊q⌋ ≤ n := by
    have := Int.floor_le_floor h
    simpa using this
  have key : q - ((⌊q⌋ : ℤ) : ℚ) < 1/2 ∨ ⌊q⌋ + 1 ≤ n := by
    by_cases h1 : q - ((⌊q⌋ : ℤ) : ℚ) < 1/2
    · exact .inl h1
    · right
      have h2 : (1 : ℚ)/2 ≤ q - ((⌊q⌋ : ℤ) : ℚ) := not_lt.mp h1
      have hlt : ⌊q⌋ < n := by
        by_contra hc
        push_neg at hc
        have hc2 : ((n : ℤ) : ℚ) ≤ ((⌊q⌋ : ℤ) : ℚ) := by exact_mod_cast hc
        linarith
      omega
  simp only [roundHalfEven]
  split_ifs with h1 h2 h3
  · exact hf
  · rcases key with hk | hk
    · exact absurd hk h1
    · exact hk
  · exact hf
  · rcases key with hk | hk
    · exact absurd hk h1
    · exact hk

/-- roundHalfEven is the identity on integers. -/
lemma roundHalfEven_intCast (n : ℤ) : roundHalfEven ((n : ℤ) : ℚ) = n := by
  unfold roundHalfEven
  rw [Int.floor_intCast]
  norm_num

/-- In each event the complete-capture count never exceeds the group count. -/
lemma eventCaptureCounts_le (truth : List ℤ) (energy : List ℚ) :
    (eventCaptureCounts truth energy).2 ≤ (eventCaptureCounts truth energy).1 := by
  unfold eventCaptureCounts
  exact List.length_filter_le _ _

/-- With at least one truth group in the dataset, calculate_capture_ratio
takes the non-raising branch and returns the two counter lists and the
rounded percentage. -/
lemma calculate_capture_ratio_eq_ok (events : List (List ℤ × List ℚ))
    (h : 0 < (events.map (fun ev => (eventCaptureCounts ev.1 ev.2).1)).sum) :
    calculate_capture_ratio events =
      .ok (events.map (fun ev => (eventCaptureCounts ev.1 ev.2).1),
           events.map (fun ev => (eventCaptureCounts ev.1 ev.2).2),
           roundHalfEven
             ((((events.map (fun ev => (eventCaptureCounts ev.1 ev.2).2)).sum : ℕ) : ℚ)
               / (((events.map (fun ev => (eventCaptureCounts ev.1 ev.2).1)).sum : ℕ) : ℚ)
               * 100)) := by
  unfold calculate_capture_ratio
  rw [if_neg (by omega)]

/-- C2: the capture ratio is sum(complete)/sum(total) times 100 rounded to an
integer percentage, lies in [0, 100], and equals 100 when every truth group
sums to exactly 6.1 MeV.  Holds whenever the dataset has at least one truth
group (otherwise the code raises, see C5). -/
theorem capture_ratio_formula_and_bounds (events : List (List ℤ × List ℚ))
    (h : 0 < (events.map (fun ev => (eventCaptureCounts ev.1 ev.2).1)).sum) :
    ∃ r : ℤ,
      calculate_capture_ratio events =
        .ok (events.map (fun ev => (eventCaptureCounts ev.1 ev.2).1),
             events.map (fun ev => (eventCaptureCounts ev.1 ev.2).2), r)
      ∧ r = roundHalfEven
          ((((events.map (fun ev => (eventCaptureCounts ev.1 ev.2).2)).sum : ℕ) : ℚ)
            / (((events.map (fun ev => (eventCaptureCounts ev.1 ev.2).1)).sum : ℕ) : ℚ)
            * 100)
      ∧ 0 ≤ r ∧ r ≤ 100
      ∧ ((∀ ev ∈ events, ∀ c ∈ ev.1.dedup,
            groupEnergy ev.1 ev.2 c = 61/10) → r = 100) := by
  have hok := calculate_capture_ratio_eq_ok events h
  have hcs : (events.map (fun ev => (eventCaptureCounts ev.1 ev.2).2)).sum ≤
      (events.map (fun ev => (eventCaptureCounts ev.1 ev.2).1)).sum :=
    List.sum_le_sum (fun ev _ => eventCaptureCounts_le ev.1 ev.2)
  have htpos : (0 : ℚ) <
      (((events.map (fun ev => (eventCaptureCounts ev.1 ev.2).1)).sum : ℕ) : ℚ) := by
    exact_mod_cast h
  have hqnn : (0 : ℚ) ≤
      (((events.map (fun ev => (eventCaptureCounts ev.1 ev.2).2)).sum : ℕ) : ℚ)
        / (((events.map (fun ev => (eventCaptureCounts ev.1 ev.2).1)).sum : ℕ) : ℚ)
        * 100 := by positivity
  have hqle : (((events.map (fun ev => (eventCaptureCounts ev.1 ev.2).2)).sum : ℕ) : ℚ)
        / (((events.map (fun ev => (eventCaptureCounts ev.1 ev.2).1)).sum : ℕ) : ℚ)
        * 100 ≤ ((100 : ℤ) : ℚ) := by
    have hdiv : (((events.map (fun ev => (eventCaptureCounts ev.1 ev.2).2)).sum : ℕ) : ℚ)
        / (((events.map (fun ev => (eventCaptureCounts ev.1 ev.2).1)).sum : ℕ) : ℚ) ≤ 1 := by
      rw [div_le_one htpos]
      exact_mod_cast hcs
    have := mul_le_mul_of_nonneg_right hdiv (by norm_num : (0:ℚ) ≤ 100)
    simpa using this
  refine ⟨_, hok, rfl, roundHalfEven_nonneg _ hqnn, roundHalfEven_le _ 100 hqle, ?_⟩
  intro hall
  have hmapeq : events.map (fun ev => (eventCaptureCounts ev.1 ev.2).2) =
      events.map (fun ev => (eventCaptureCounts ev.1 ev.2).1) := by
    apply List.map_congr_left
    intro ev hev
    unfold eventCaptureCounts
    have : ev.1.dedup.filter
        (fun c => decide (round2 (groupEnergy ev.1 ev.2 c) = 61/10)) = ev.1.dedup := by
      apply List.filter_eq_self.mpr
      intro c hc
      simp only [decide_eq_true_eq]
      rw [hall ev hev c hc]
      exact round2_capture_energy
    simp [this]
  rw [hmapeq, div_self htpos.ne']
  norm_num
  exact_mod_cast roundHalfEven_intCast 100

/-- A one-event dataset whose three deposits form two truth groups, both of
which sum to exactly 6.1 MeV. -/
def fullCaptureEvents : List (List ℤ × List ℚ) := [([1, 1, 2], [61/10, 0, 61/10])]

/-- C2 witness: the capture-ratio theorem instantiated on a concrete
one-event dataset with two complete captures. -/
theorem capture_ratio_formula_and_bounds_witness :
    0 < (fullCaptureEvents.map (fun ev => (eventCaptureCounts ev.1 ev.2).1)).sum ∧
    ∃ r : ℤ,
      calculate_capture_ratio fullCaptureEvents =
        .ok (fullCaptureEvents.map (fun ev => (eventCaptureCounts ev.1 ev.2).1),
             fullCaptureEvents.map (fun ev => (eventCaptureCounts ev.1 ev.2).2), r)
      ∧ r = roundHalfEven
          ((((fullCaptureEvents.map (fun ev => (eventCaptureCounts ev.1 ev.2).2)).sum : ℕ) : ℚ)
            / (((fullCaptureEvents.map (fun ev => (eventCaptureCounts ev.1 ev.2).1)).sum : ℕ) : ℚ)
            * 100)
      ∧ 0 ≤ r ∧ r ≤ 100
      ∧ ((∀ ev ∈ fullCaptureEvents, ∀ c ∈ ev.1.dedup,
            groupEnergy ev.1 ev.2 c = 61/10) → r = 100) := by
  have hpos : 0 < (fullCaptureEvents.map (fun ev => (eventCaptureCounts ev.1 ev.2).1)).sum := by
    norm_num [fullCaptureEvents, eventCaptureCounts, List.dedup]
  exact ⟨hpos, capture_ratio_formula_and_bounds fullCaptureEvents hpos⟩

/-- C5: an event with zero points contributes (0, 0) to the per-event counter
lists without raising, while a dataset in which every event has zero truth
groups makes the aggregate ratio raise a division error. -/
theorem capture_ratio_empty_events (events : List (List ℤ × List ℚ))
    (h : ∀ ev ∈ events, ev.1 = []) :
    eventCaptureCounts ([] : List ℤ) ([] : List ℚ) = (0, 0)
    ∧ calculate_capture_ratio events = .error .divisionError
    ∧ ∀ evs : List (List ℤ × List ℚ),
        0 < (evs.map (fun ev => (eventCaptureCounts ev.1 ev.2).1)).sum →
        ∃ rest₁ rest₂ r,
          calculate_capture_ratio ((([] : List ℤ), ([] : List ℚ)) :: evs) =
            .ok (0 :: rest₁, 0 :: rest₂, r) := by
  have hhead : eventCaptureCounts ([] : List ℤ) ([] : List ℚ) = (0, 0) := rfl
  refine ⟨hhead, ?_, ?_⟩
  · have hz : (events.map (fun ev => (eventCaptureCounts ev.1 ev.2).1)).sum = 0 := by
      apply List.sum_eq_zero
      intro x hx
      rw [List.mem_map] at hx
      obtain ⟨ev, hev, hx⟩ := hx
      rw [← hx, h ev hev]
      simp [eventCaptureCounts]
    unfold calculate_capture_ratio
    rw [if_pos hz]
  · intro evs hpos
    have hpos' : 0 <
        ((((([] : List ℤ), ([] : List ℚ)) :: evs).map
          (fun ev => (eventCaptureCounts ev.1 ev.2).1)).sum) := by
      simp only [List.map_cons, List.sum_cons, hhead]
      omega
    refine ⟨evs.map (fun ev => (eventCaptureCounts ev.1 ev.2).1),
            evs.map (fun ev => (eventCaptureCounts ev.1 ev.2).2),
            roundHalfEven
              (((((((([] : List ℤ), ([] : List ℚ)) :: evs).map
                    (fun ev => (eventCaptureCounts ev.1 ev.2).2)).sum : ℕ) : ℚ))
                / ((((((([] : List ℤ), ([] : List ℚ)) :: evs).map
                    (fun ev => (eventCaptureCounts ev.1 ev.2).1)).sum : ℕ) : ℚ)) * 100), ?_⟩
    rw [calculate_capture_ratio_eq_ok _ hpos']
    simp [hhead]

/-- C5 witness: a dataset with one zero-point event raises the division
error on the aggregate capture ratio. -/
theorem capture_ratio_empty_events_witness :
    calculate_capture_ratio [(([] : List ℤ), ([] : List ℚ))] = .error .divisionError :=
  (capture_ratio_empty_events [([], [])]
    (by intro ev hev; rw [List.mem_singleton] at hev; rw [hev])).2.1

/-- A 3D deposit position (edep_x, edep_y, edep_z), in mm. -/
abbrev Q3 : Type := ℚ × ℚ × ℚ

/-- The six per-event metric lists held in self.cluster_scores, in the fixed
dict insertion order of the source. -/
structure ScoreLists where
  homogeneity : List ℚ
  completeness : List ℚ
  vmeasure : List ℚ
  adjusted_rand_index : List ℚ
  adjusted_mutual_info : List ℚ
  silhouette : List ℚ
deriving DecidableEq, Repr

/-- The six averaged metrics held in self.avg_cluster_scores. -/
structure AvgScores where
  homogeneity : ℚ
  completeness : ℚ
  vmeasure : ℚ
  adjusted_rand_index : ℚ
  adjusted_mutual_info : ℚ
  silhouette : ℚ
deriving DecidableEq, Repr

/-- The mutable per-instance state of NeutronClusteringMCTruth that the
clustering, scoring and scanning methods read and write.  The immutable
event arrays built in the constructor are carried alongside. -/
structure Inst where
  edep_positions : List (List Q3)
  edep_neutron_ids : List (List ℤ)
  edep_gamma_ids : List (List ℤ)
  num_events : ℕ
  cluster_predictions : List (List ℤ)
  cluster_scores : ScoreLists
  avg_cluster_scores : AvgScores
deriving DecidableEq, Repr

/-- The keys of the module-level cluster_params dict, in order. -/
def algNames : List String := ["affinity", "mean_shift", "dbscan", "optics", "gaussian"]

/-- Allowed parameter keys per algorithm: the keys of cluster_params[alg]. -/
def cluster_params_keys (alg : String) : List String :=
  if alg = "affinity" then ["damping", "max_iter"]
  else if alg = "mean_shift" then ["bandwidth"]
  else if alg = "dbscan" then ["eps", "min_samples"]
  else if alg = "optics" then ["min_samples"]
  else if alg = "gaussian" then
    ["n_components", "covariance_type", "tol", "reg_covar", "max_iter"]
  else []

/-- The default dbscan parameter dict cluster_params["dbscan"]:
eps = 100.0, min_samples = 6 (numeric parameter values as rationals). -/
def cluster_params_dbscan : List (String × ℚ) := [("eps", 100), ("min_samples", 6)]

inductive ClusterErr where
  /-- ValueError: unrecognized parameter, carrying the offending key and the
  legal key set of the algorithm, as in the source error message. -/
  | paramError (key : String) (allowed : List String)
  /-- AttributeError: the dispatch line cluster.GaussianMixture looks up an
  attribute that the sklearn.cluster module does not define (GaussianMixture
  lives in sklearn.mixture, and has no labels_ attribute either). -/
  | attributeError
deriving DecidableEq, Repr

/-- NeutronClusteringMCTruth.cluster.  The sklearn estimators are black
boxes, abstracted by the oracle fit: given the algorithm name, its
parameter dict and the positions of one event it returns the labels_ of
that event.
Control flow follows the source: level fallback (unused), algorithm
fallback to dbscan with default params, parameter-key validation with
ValueError, then dispatch and one fit per event. -/
def cluster (fit : String → List (String × ℚ) → List Q3 → List ℤ)
    (level : String) (alg : String) (params : List (String × ℚ))
    (inst : Inst) : Except ClusterErr Inst :=
  let _level : String := if level = "neutron" ∨ level = "gamma" then level else "neutron"
  let ap : String × List (String × ℚ) :=
    if algNames.contains alg then (alg, params) else ("dbscan", cluster_params_dbscan)
  match ap.2.find? (fun p => !((cluster_params_keys ap.1).contains p.1)) with
  | some p => .error (.paramError p.1 (cluster_params_keys ap.1))
  | none =>
    if ap.1 = "gaussian" then .error .attributeError
    else .ok { inst with cluster_predictions := inst.edep_positions.map (fit ap.1 ap.2) }

/-- A trivial oracle for witnesses: every point gets label 0. -/
def fitZero : String → List (String × ℚ) → List Q3 → List ℤ :=
  fun _ _ pos => pos.map (fun _ => 0)

/-- An oracle for witnesses that alternates labels 0 and 1 along the event. -/
def fitMod2 : String → List (String × ℚ) → List Q3 → List ℤ :=
  fun _ _ pos => (List.range pos.length).map (fun i => (i : ℤ) % 2)

/-- A small concrete instance: one event with three deposits and two truth
groups, no clustering run yet. -/
def instDemo : Inst :=
  { edep_positions := [[(0, 0, 0), (1, 1, 1), (2, 2, 2)]]
    edep_neutron_ids := [[1, 1, 2]]
    edep_gamma_ids := [[7, 7, 8]]
    num_events := 1
    cluster_predictions := []
    cluster_scores := ⟨[], [], [], [], [], []⟩
    avg_cluster_scores := ⟨0, 0, 0, 0, 0, 0⟩ }

/-- C10: the level argument of cluster is validated and then never used, so
any two level values produce identical results on otherwise equal inputs. -/
theorem cluster_level_has_no_effect
    (fit : String → List (String × ℚ) → List Q3 → List ℤ)
    (level₁ level₂ alg : String) (params : List (String × ℚ)) (inst : Inst) :
    cluster fit level₁ alg params inst = cluster fit level₂ alg params inst := rfl

/-- C3: dispatching the enumerated algorithm "gaussian" with any legal
parameter dict reaches cluster.GaussianMixture, a missing attribute of the
sklearn.cluster module, so cluster raises instead of producing one label
per point. -/
theorem cluster_gaussian_attribute_error
    (fit : String → List (String × ℚ) → List Q3 → List ℤ)
    (level : String) (params : List (String × ℚ)) (inst : Inst)
    (h : ∀ p ∈ params, (cluster_params_keys "gaussian").contains p.1 = true) :
    cluster fit level "gaussian" params inst = .error .attributeError := by
  unfold cluster
  have halg : algNames.contains "gaussian" = true := rfl
  simp only [halg, if_true]
  have hfind : params.find? (fun p => !((cluster_params_keys "gaussian").contains p.1)) = none := by
    apply List.find?_eq_none.mpr
    intro p hp
    simp only [Bool.not_eq_true, Bool.not_eq_false]
    simpa using h p hp
  rw [hfind]

/-- C3 witness: the gaussian branch fails on a concrete instance with the
empty parameter dict. -/
theorem cluster_gaussian_attribute_error_witness :
    cluster fitZero "neutron" "gaussian" [] instDemo = .error .attributeError :=
  cluster_gaussian_attribute_error fitZero "neutron" [] instDemo (by intro p hp; cases hp)

/-- C9: an unrecognized algorithm name replaces the caller-supplied params
wholesale with the dbscan defaults before key validation, so the call never
raises the parameter ValueError and silently runs dbscan with defaults. -/
theorem cluster_unknown_algorithm_falls_back
    (fit : String → List (String × ℚ) → List Q3 → List ℤ)
    (level alg : String) (params : List (String × ℚ)) (inst : Inst)
    (h : algNames.contains alg = false) :
    cluster fit level alg params inst =
      cluster fit level "dbscan" cluster_params_dbscan inst
    ∧ ∃ inst₂ : Inst, cluster fit level alg params inst = .ok inst₂ := by
  have hcond : (if algNames.contains alg then (alg, params)
      else ("dbscan", cluster_params_dbscan)) = ("dbscan", cluster_params_dbscan) := by
    rw [if_neg]
    intro hc
    rw [h] at hc
    exact Bool.false_ne_true hc
  have hcond2 : (if algNames.contains "dbscan" then ("dbscan", cluster_params_dbscan)
      else ("dbscan", cluster_params_dbscan)) = ("dbscan", cluster_params_dbscan) :=
    if_pos rfl
  have heq : cluster fit level alg params inst =
      cluster fit level "dbscan" cluster_params_dbscan inst := by
    simp only [cluster]
    rw [hcond, hcond2]
  refine ⟨heq, ?_⟩
  rw [heq]
  exact ⟨{ inst with cluster_predictions :=
      inst.edep_positions.map (fit "dbscan" cluster_params_dbscan) }, rfl⟩

/-- C9 witness: the unknown algorithm "kmeans" with an unknown parameter key
raises nothing and behaves exactly like dbscan with default params. -/
theorem cluster_unknown_algorithm_falls_back_witness :
    cluster fitZero "neutron" "kmeans" [("n_clusters", 5)] instDemo =
      cluster fitZero "neutron" "dbscan" cluster_params_dbscan instDemo
    ∧ ∃ inst₂ : Inst,
        cluster fitZero "neutron" "kmeans" [("n_clusters", 5)] instDemo = .ok inst₂ :=
  cluster_unknown_algorithm_falls_back fitZero "neutron" "kmeans"
    [("n_clusters", 5)] instDemo rfl

/-- C4: for a recognized algorithm, any parameter key outside the declared
allowed-key set makes cluster raise a ValueError carrying an offending key
and the legal key set, before any clustering is run. -/
theorem cluster_unknown_param_key_fails
    (fit : String → List (String × ℚ) → List Q3 → List ℤ)
    (level alg : String) (params : List (String × ℚ)) (inst : Inst) (key : String)
    (halg : algNames.contains alg = true)
    (hkey : key ∈ params.map Prod.fst)
    (hbad : (cluster_params_keys alg).contains key = false) :
    ∃ k : String,
      cluster fit level alg params inst = .error (.paramError k (cluster_params_keys alg))
      ∧ k ∈ params.map Prod.fst
      ∧ (cluster_params_keys alg).contains k = false := by
  have hex : ∃ p ∈ params, (!((cluster_params_keys alg).contains p.1)) = true := by
    rw [List.mem_map] at hkey
    obtain ⟨p, hp, hpk⟩ := hkey
    exact ⟨p, hp, by rw [hpk, hbad]; rfl⟩
  cases hfind : params.find? (fun p => !((cluster_params_keys alg).contains p.1)) with
  | none =>
    exfalso
    obtain ⟨p, hp, hpred⟩ := hex
    have hnone := List.find?_eq_none.mp hfind p hp
    simp only [hpred, not_true] at hnone
  | some q =>
    have hqmem : q ∈ params := List.mem_of_find?_eq_some hfind
    have hqpred := List.find?_some hfind
    refine ⟨q.1, ?_, List.mem_map.mpr ⟨q, hqmem, rfl⟩, by simpa using hqpred⟩
    simp only [cluster]
    rw [if_pos halg, hfind]

/-- C4 witness: dbscan with the unknown key "foo" fails with the parameter
ValueError naming an offending key and the legal dbscan key set. -/
theorem cluster_unknown_param_key_fails_witness :
    ∃ k : String,
      cluster fitZero "neutron" "dbscan" [("foo", 1)] instDemo =
        .error (.paramError k (cluster_params_keys "dbscan"))
      ∧ k ∈ ([("foo", (1 : ℚ))].map Prod.fst)
      ∧ (cluster_params_keys "dbscan").contains k = false :=
  cluster_unknown_param_key_fails fitZero "neutron" "dbscan" [("foo", 1)] instDemo "foo"
    rfl (by simp) rfl

/-- The sklearn.metrics functions used by calc_scores, as black-box oracles:
five label-comparison metrics and the geometric silhouette value.  Only the
raising behaviour of silhouette_score is modelled explicitly below. -/
structure MetricOracle where
  homogeneity_score : List ℤ → List ℤ → ℚ
  completeness_score : List ℤ → List ℤ → ℚ
  v_measure_score : List ℤ → List ℤ → ℚ
  adjusted_rand_score : List ℤ → List ℤ → ℚ
  adjusted_mutual_info_score : List ℤ → List ℤ → ℚ
  silhouette_value : List Q3 → List ℤ → ℚ

/-- Number of distinct labels in a prediction, len(np.unique(pred)).
sklearn counts the noise label -1 like any other label here. -/
def distinctCount (pred : List ℤ) : ℕ := pred.dedup.length

/-- The domain of sklearn.metrics.silhouette_score: labels must match the
sample count and the number of distinct labels must satisfy
2 <= n_labels <= n_samples - 1, else it raises ValueError. -/
def silhouetteDefined (pos : List Q3) (pred : List ℤ) : Prop :=
  pred.length = pos.length ∧ 2 ≤ distinctCount pred ∧ distinctCount pred ≤ pos.length - 1

instance silhouetteDefined.decidable (pos : List Q3) (pred : List ℤ) :
    Decidable (silhouetteDefined pos pred) := by
  unfold silhouetteDefined
  infer_instance

inductive ScoreErr where
  /-- ValueError: no predictions have been made yet. -/
  | noPredictions
  /-- ValueError: prediction count differs from the event count. -/
  | countMismatch
  /-- ValueError raised inside sklearn silhouette_score. -/
  | silhouetteError
deriving DecidableEq, Repr

/-- The per-event metric loop of calc_scores over (prediction, truth labels,
positions) triples.  Each event appends its six scores; silhouette_score
raises as soon as one event has an out-of-domain label count, aborting the
whole loop. -/
def scoresLoop (m : MetricOracle) :
    List (List ℤ × List ℤ × List Q3) → Except ScoreErr ScoreLists
  | [] => .ok ⟨[], [], [], [], [], []⟩
  | (pred, lab, pos) :: rest =>
    if silhouetteDefined pos pred then
      match scoresLoop m rest with
      | .error e => .error e
      | .ok s =>
        .ok ⟨m.homogeneity_score lab pred :: s.homogeneity,
             m.completeness_score lab pred :: s.completeness,
             m.v_measure_score lab pred :: s.vmeasure,
             m.adjusted_rand_score lab pred :: s.adjusted_rand_index,
             m.adjusted_mutual_info_score lab pred :: s.adjusted_mutual_info,
             m.silhouette_value pos pred :: s.silhouette⟩
    else .error .silhouetteError

/-- NeutronClusteringMCTruth.calc_scores: level fallback, the two state
checks, the per-event metric loop, then averages obtained by dividing each
metric sum by len(labels). -/
def calc_scores (m : MetricOracle) (level : String) (inst : Inst) :
    Except ScoreErr (Inst × AvgScores) :=
  let level' := if level = "neutron" ∨ level = "gamma" then level else "neutron"
  if inst.cluster_predictions = [] then .error .noPredictions
  else if inst.cluster_predictions.length ≠ inst.num_events then .error .countMismatch
  else
    let labels := if level' = "neutron" then inst.edep_neutron_ids else inst.edep_gamma_ids
    match scoresLoop m (inst.cluster_predictions.zip (labels.zip inst.edep_positions)) with
    | .error e => .error e
    | .ok s =>
      let n : ℚ := (labels.length : ℚ)
      let avg : AvgScores :=
        ⟨s.homogeneity.sum / n, s.completeness.sum / n, s.vmeasure.sum / n,
         s.adjusted_rand_index.sum / n, s.adjusted_mutual_info.sum / n,
         s.silhouette.sum / n⟩
      .ok ({ inst with cluster_scores := s, avg_cluster_scores := avg }, avg)

/-- If the metric loop completed, every processed event satisfied the
silhouette domain condition. -/
lemma scoresLoop_ok_defined (m : MetricOracle)
    (ts : List (List ℤ × List ℤ × List Q3)) (s : ScoreLists)
    (h : scoresLoop m ts = .ok s) :
    ∀ t ∈ ts, silhouetteDefined t.2.2 t.1 := by
  induction ts generalizing s with
  | nil => intro t ht; cases ht
  | cons hd tl ih =>
    obtain ⟨pred, lab, pos⟩ := hd
    intro t ht
    rw [scoresLoop] at h
    by_cases hc : silhouetteDefined pos pred
    · rw [if_pos hc] at h
      cases hrec : scoresLoop m tl with
      | error e => rw [hrec] at h; cases h
      | ok s2 =>
        rcases List.mem_cons.mp ht with h1 | h2
        · subst h1; exact hc
        · exact ih s2 hrec t h2
    · rw [if_neg hc] at h; cases h

/-- If some prediction in the zipped triples has fewer than two distinct
labels, the metric loop cannot complete. -/
lemma scoresLoop_zip_not_ok (m : MetricOracle) (preds labels : List (List ℤ))
    (positions : List (List Q3)) (i : ℕ) (hi : i < preds.length)
    (hlt : distinctCount preds[i] < 2)
    (hl : preds.length ≤ labels.length) (hpos : preds.length ≤ positions.length) :
    ∀ s, scoresLoop m (preds.zip (labels.zip positions)) ≠ .ok s := by
  intro s hok
  have hiz : i < (preds.zip (labels.zip positions)).length := by
    rw [List.length_zip, List.length_zip]
    omega
  have hdef := scoresLoop_ok_defined m _ s hok _ (List.getElem_mem hiz)
  have h1 : (preds.zip (labels.zip positions))[i].1 = preds[i] := by
    rw [List.getElem_zip]
  have h2 := hdef.2.1
  rw [h1] at h2
  omega

/-- A metric oracle whose black-box values are all zero; the raising
behaviour under test does not depend on the returned values. -/
def mZero : MetricOracle :=
  ⟨fun _ _ => 0, fun _ _ => 0, fun _ _ => 0, fun _ _ => 0, fun _ _ => 0, fun _ _ => 0⟩

/-- instDemo after a clustering run that put all three points of the single
event into one cluster: one distinct predicted label. -/
def instOneCluster : Inst := { instDemo with cluster_predictions := [[0, 0, 0]] }

/-- C1 counterexample: on a dataset whose single event has only one
predicted cluster, calc_scores raises out of silhouette_score and the whole
scoring run fails; no per-event skip happens and no averages are produced,
contradicting the claim that only the silhouette entry of that event is
dropped. -/
theorem silhouette_failure_aborts_whole_run :
    calc_scores mZero "neutron" instOneCluster = .error .silhouetteError := rfl

/-- C1 (amended): whenever the predicted labeling of some event has fewer than
two distinct labels, calc_scores raises and the entire scoring run fails
with an error; the five other metrics of later events and all averages are
never produced.  The length bounds are the data invariants established by
the constructor. -/
theorem calc_scores_fails_when_few_clusters (m : MetricOracle) (level : String)
    (inst : Inst)
    (hn : inst.num_events ≤ inst.edep_neutron_ids.length)
    (hg : inst.num_events ≤ inst.edep_gamma_ids.length)
    (hp : inst.num_events ≤ inst.edep_positions.length)
    (hbad : ∃ pred ∈ inst.cluster_predictions, distinctCount pred < 2) :
    ∃ e : ScoreErr, calc_scores m level inst = .error e := by
  obtain ⟨pred, hmem, hlt⟩ := hbad
  obtain ⟨i, hi, hip⟩ := List.mem_iff_getElem.mp hmem
  by_cases h1 : inst.cluster_predictions = []
  · exact ⟨.noPredictions, by simp only [calc_scores]; rw [if_pos h1]⟩
  · by_cases h2 : inst.cluster_predictions.length = inst.num_events
    · by_cases hl : (if level = "neutron" ∨ level = "gamma" then level else "neutron") = "neutron"
      · cases hloop : scoresLoop m
            (inst.cluster_predictions.zip (inst.edep_neutron_ids.zip inst.edep_positions)) with
        | error e =>
          refine ⟨e, ?_⟩
          simp only [calc_scores]
          rw [if_neg h1, if_neg (fun hc => hc h2), hl, if_pos rfl, hloop]
        | ok s =>
          exact absurd hloop
            (scoresLoop_zip_not_ok m _ _ _ i hi (by rw [hip]; exact hlt)
              (by omega) (by omega) s)
      · cases hloop : scoresLoop m
            (inst.cluster_predictions.zip (inst.edep_gamma_ids.zip inst.edep_positions)) with
        | error e =>
          refine ⟨e, ?_⟩
          simp only [calc_scores]
          rw [if_neg h1, if_neg (fun hc => hc h2), if_neg hl, hloop]
        | ok s =>
          exact absurd hloop
            (scoresLoop_zip_not_ok m _ _ _ i hi (by rw [hip]; exact hlt)
              (by omega) (by omega) s)
    · exact ⟨.countMismatch, by simp only [calc_scores]; rw [if_neg h1, if_pos h2]⟩

/-- C1 witness: the amended statement applied to the concrete one-cluster
instance at level gamma. -/
theorem calc_scores_fails_when_few_clusters_witness :
    ∃ e : ScoreErr, calc_scores mZero "gamma" instOneCluster = .error e :=
  calc_scores_fails_when_few_clusters mZero "gamma" instOneCluster
    (by decide) (by decide) (by decide) ⟨[0, 0, 0], by decide, by decide⟩

/-- np.max over a list (the fit is only invoked on non-empty data). -/
def listMax (l : List ℚ) : ℚ := l.foldl max (l.headD 0)

/-- np.min over a list. -/
def listMin (l : List ℚ) : ℚ := l.foldl min (l.headD 0)

/-- depth = np.abs(y_max - y_pos) over the concatenated y coordinates,
a dataset-wide aggregate as in fit_depth_exponential. -/
def depthValues (ys : List ℚ) : List ℚ :=
  let y_max := listMax ys
  ys.map (fun y => |y_max - y|)

/-- Index of the uniform histogram bin receiving value v: floor division by
the bin width, with the last bin right-closed (numpy semantics). -/
def binIdx (lo w : ℚ) (nb : ℕ) (v : ℚ) : ℕ :=
  min (Int.toNat ⌊(v - lo) / w⌋) (nb - 1)

/-- np.histogram(vals, bins=nb): counts per uniform bin over the data range
[min, max]; numpy widens a zero-width range by 0.5 on each side. -/
def histCounts (vals : List ℚ) (nb : ℕ) : List ℕ :=
  let mn := listMin vals
  let mx := listMax vals
  let lo := if mn = mx then mn - 1/2 else mn
  let hi := if mn = mx then mx + 1/2 else mx
  let w := (hi - lo) / (nb : ℚ)
  (List.range nb).map (fun i => vals.countP (fun v => binIdx lo w nb v == i))

/-- y_hist = y_hist.astype(float) / hist_sum in fit_depth_exponential. -/
def normHist (vals : List ℚ) (nb : ℕ) : List ℚ :=
  let counts := histCounts vals nb
  counts.map (fun c => ((c : ℕ) : ℚ) / (((counts.sum : ℕ)) : ℚ))

/-- The cumulative-histogram loop of fit_depth_exponential:
cum_hist = [y_hist[0]] then cum_hist.append(y_hist[ii] + cum_hist[-1]). -/
def cumAux (acc : ℚ) : List ℚ → List ℚ
  | [] => []
  | x :: xs => (acc + x) :: cumAux (acc + x) xs

/-- The cumulative histogram built from a density list. -/
def cum_hist (h : List ℚ) : List ℚ := cumAux 0 h

/-- Summing an indicator of a fixed index over List.range gives one. -/
lemma indicator_sum (n a : ℕ) (h : a < n) :
    ((List.range n).map (fun i => if a = i then 1 else 0)).sum = 1 := by
  induction n with
  | zero => omega
  | succ n ih =>
    rw [List.range_succ, List.map_append, List.sum_append]
    by_cases ha : a = n
    · subst ha
      have h0 : ((List.range a).map (fun i => if a = i then 1 else 0)).sum = 0 := by
        apply List.sum_eq_zero
        intro x hx
        rw [List.mem_map] at hx
        obtain ⟨i, hi, hx⟩ := hx
        rw [List.mem_range] at hi
        rw [← hx, if_neg (by omega)]
      simp [h0]
    · have ha2 : a < n := by omega
      rw [ih ha2]
      simp [ha]

/-- Pointwise sums over a range distribute. -/
lemma range_map_add_sum (n : ℕ) (g h : ℕ → ℕ) :
    ((List.range n).map (fun i => g i + h i)).sum =
      ((List.range n).map g).sum + ((List.range n).map h).sum := by
  induction n with
  | zero => simp
  | succ n ih =>
    rw [List.range_succ]
    simp only [List.map_append, List.sum_append, ih, List.map_cons, List.map_nil,
      List.sum_cons, List.sum_nil]
    omega

/-- Binning every element by a bounded index function partitions the list:
the bin counts sum to the list length. -/
lemma countP_partition {α : Type} (f : α → ℕ) (nb : ℕ) (hf : ∀ a, f a < nb)
    (l : List α) :
    ((List.range nb).map (fun i => l.countP (fun a => f a == i))).sum = l.length := by
  induction l with
  | nil => simp
  | cons a l ih =>
    have hstep : ∀ i : ℕ, (a :: l).countP (fun x => f x == i) =
        l.countP (fun x => f x == i) + (if f a = i then 1 else 0) := by
      intro i
      rw [List.countP_cons]
      by_cases hfa : f a = i <;> simp [hfa]
    have hmap : ((List.range nb).map (fun i => (a :: l).countP (fun x => f x == i))) =
        ((List.range nb).map
          (fun i => l.countP (fun x => f x == i) + (if f a = i then 1 else 0))) :=
      List.map_congr_left (fun i _ => hstep i)
    rw [hmap, range_map_add_sum, ih, indicator_sum nb (f a) (hf a), List.length_cons]

/-- Dividing every count by a constant and summing gives the summed count
divided by the constant. -/
lemma sum_map_div (l : List ℕ) (c : ℚ) :
    (l.map (fun x => ((x : ℕ) : ℚ) / c)).sum = (((l.sum : ℕ)) : ℚ) / c := by
  induction l with
  | nil => simp
  | cons a l ih =>
    simp only [List.map_cons, List.sum_cons, ih, Nat.cast_add]
    rw [add_div]

/-- The histogram counts of any value list partition it: they sum to the
number of values. -/
lemma histCounts_sum (vals : List ℚ) (nb : ℕ) (h2 : 0 < nb) :
    (histCounts vals nb).sum = vals.length := by
  simp only [histCounts]
  refine countP_partition _ nb (fun v => ?_) vals
  unfold binIdx
  have := min_le_right
    (Int.toNat ⌊(v - (if listMin vals = listMax vals then listMin vals - 1/2 else listMin vals)) /
      ((if listMin vals = listMax vals then listMax vals + 1/2 else listMax vals) -
        (if listMin vals = listMax vals then listMin vals - 1/2 else listMin vals)) / (nb : ℚ)⌋)
    (nb - 1)
  omega

/-- The normalized histogram has one entry per bin. -/
lemma normHist_length (vals : List ℚ) (nb : ℕ) : (normHist vals nb).length = nb := by
  simp [normHist, histCounts]

/-- Every normalized histogram density is nonnegative. -/
lemma normHist_nonneg (vals : List ℚ) (nb : ℕ) :
    ∀ x ∈ normHist vals nb, 0 ≤ x := by
  intro x hx
  simp only [normHist] at hx
  rw [List.mem_map] at hx
  obtain ⟨c, hc, hx⟩ := hx
  rw [← hx]
  positivity

/-- The normalized histogram densities sum to one on non-empty data. -/
lemma normHist_sum (vals : List ℚ) (nb : ℕ) (h1 : vals ≠ []) (h2 : 0 < nb) :
    (normHist vals nb).sum = 1 := by
  simp only [normHist]
  rw [sum_map_div, histCounts_sum vals nb h2]
  have hlen : vals.length ≠ 0 := fun hc => h1 (List.length_eq_zero.mp hc)
  rw [div_self (by exact_mod_cast hlen)]

/-- The last entry of the cumulative loop is the accumulator plus the total. -/
lemma cumAux_getLast (acc x : ℚ) (xs : List ℚ) :
    (cumAux acc (x :: xs)).getLast? = some (acc + (x :: xs).sum) := by
  induction xs generalizing acc x with
  | nil => simp [cumAux]
  | cons y ys ih =>
    rw [cumAux, cumAux, List.getLast?_cons_cons]
    have hih := ih (acc + x) y
    rw [cumAux] at hih
    rw [hih]
    congr 1
    simp only [List.sum_cons]
    ring

/-- Every entry of the cumulative loop over nonnegative summands lies
between the accumulator and the accumulator plus the total. -/
lemma cumAux_bounds (acc : ℚ) (l : List ℚ) (hl : ∀ x ∈ l, 0 ≤ x) :
    ∀ y ∈ cumAux acc l, acc ≤ y ∧ y ≤ acc + l.sum := by
  induction l generalizing acc with
  | nil => intro y hy; cases hy
  | cons x xs ih =>
    intro y hy
    rw [cumAux] at hy
    have hx : 0 ≤ x := hl x (List.mem_cons_self x xs)
    have hxs : ∀ z ∈ xs, 0 ≤ z := fun z hz => hl z (List.mem_cons_of_mem x hz)
    have hsum : 0 ≤ xs.sum := List.sum_nonneg hxs
    rcases List.mem_cons.mp hy with h1 | h2
    · subst h1
      refine ⟨by linarith, ?_⟩
      rw [List.sum_cons]
      linarith
    · obtain ⟨ha, hb⟩ := ih (acc + x) hxs y h2
      refine ⟨by linarith, ?_⟩
      rw [List.sum_cons]
      linarith

/-- The cumulative loop over nonnegative summands is monotone
non-decreasing. -/
lemma cumAux_chain (acc : ℚ) (l : List ℚ) (hl : ∀ x ∈ l, 0 ≤ x) :
    List.Chain' (fun a b => a ≤ b) (cumAux acc l) := by
  induction l generalizing acc with
  | nil => simp [cumAux]
  | cons x xs ih =>
    cases xs with
    | nil => simp [cumAux]
    | cons y ys =>
      rw [cumAux, cumAux, List.chain'_cons]
      have hy : 0 ≤ y := hl y (List.mem_cons_of_mem x (List.mem_cons_self y ys))
      refine ⟨by linarith, ?_⟩
      have hih := ih (acc + x)
        (fun z hz => hl z (List.mem_cons_of_mem x hz))
      rw [cumAux] at hih
      exact hih

/-- C7: for non-empty depth data and a positive bin count, the normalized
depth histogram of fit_depth_exponential sums to 1, and its cumulative
curve is monotone non-decreasing, bounded in [0, 1], with final value 1. -/
theorem depth_histogram_invariants (ys : List ℚ) (nb : ℕ)
    (h1 : ys ≠ []) (h2 : 0 < nb) :
    (normHist (depthValues ys) nb).sum = 1
    ∧ List.Chain' (fun a b => a ≤ b) (cum_hist (normHist (depthValues ys) nb))
    ∧ (∀ c ∈ cum_hist (normHist (depthValues ys) nb), 0 ≤ c ∧ c ≤ 1)
    ∧ (cum_hist (normHist (depthValues ys) nb)).getLast? = some 1 := by
  have hd : depthValues ys ≠ [] := by
    intro hc
    apply h1
    simpa [depthValues, List.map_eq_nil_iff] using hc
  have hsum1 : (normHist (depthValues ys) nb).sum = 1 := normHist_sum _ nb hd h2
  have hnn : ∀ x ∈ normHist (depthValues ys) nb, 0 ≤ x := normHist_nonneg _ _
  have hne : normHist (depthValues ys) nb ≠ [] := by
    have hlen := normHist_length (depthValues ys) nb
    intro hc
    rw [hc] at hlen
    simp only [List.length_nil] at hlen
    omega
  refine ⟨hsum1, cumAux_chain 0 _ hnn, ?_, ?_⟩
  · intro c hc
    have hb := cumAux_bounds 0 _ hnn c hc
    rw [hsum1] at hb
    constructor
    · linarith [hb.1]
    · linarith [hb.2]
  · obtain ⟨a, as, hcons⟩ := List.exists_cons_of_ne_nil hne
    rw [cum_hist, hcons, cumAux_getLast, ← hcons, hsum1]
    norm_num

/-- C7 witness: the invariants instantiated on three depth values and two
bins. -/
theorem depth_histogram_invariants_witness :
    (normHist (depthValues [0, 1, 2]) 2).sum = 1
    ∧ List.Chain' (fun a b => a ≤ b) (cum_hist (normHist (depthValues [0, 1, 2]) 2))
    ∧ (∀ c ∈ cum_hist (normHist (depthValues [0, 1, 2]) 2), 0 ≤ c ∧ c ≤ 1)
    ∧ (cum_hist (normHist (depthValues [0, 1, 2]) 2)).getLast? = some 1 :=
  depth_histogram_invariants [0, 1, 2] 2 (by simp) (by norm_num)

/-- One cell of the scores table written by scan_eps_values: the header row
holds strings, data rows hold numbers. -/
inductive Cell where
  | str (s : String)
  | num (q : ℚ)
deriving DecidableEq, Repr

/-- The header row of the scan table, in the fixed source order. -/
def headerRow : List Cell :=
  [.str "eps", .str "homogeneity", .str "completeness", .str "v-measure",
   .str "adjusted_rand_index", .str "adjusted_mutual_info", .str "silhouette"]

/-- The six averaged metrics of one data row, in avg_cluster_scores key
order. -/
def avgRow (a : AvgScores) : List Cell :=
  [.num a.homogeneity, .num a.completeness, .num a.vmeasure,
   .num a.adjusted_rand_index, .num a.adjusted_mutual_info, .num a.silhouette]

inductive ScanErr where
  /-- IndexError: the logging call formats eps_values[0] and eps_values[-1],
  which raises when the value list is empty. -/
  | indexError
  /-- An error propagated out of the cluster call of one iteration. -/
  | clusterError (e : ClusterErr)
  /-- An error propagated out of the calc_scores call of one iteration. -/
  | scoreError (e : ScoreErr)
deriving DecidableEq, Repr

/-- One iteration of the scan: neutron_clustering.cluster with dbscan and
the swept eps, then neutron_clustering.calc_scores with default level. -/
def scanStep (fit : String → List (String × ℚ) → List Q3 → List ℤ)
    (m : MetricOracle) (g : Inst) (eps : ℚ) :
    Except ScanErr (Inst × AvgScores) :=
  match cluster fit "neutron" "dbscan" [("eps", eps), ("min_samples", 6)] g with
  | .error e => .error (.clusterError e)
  | .ok g2 =>
    match calc_scores m "neutron" g2 with
    | .error e => .error (.scoreError e)
    | .ok r => .ok r

/-- The scan iteration over the eps values, threading the state of the
module-level global object and collecting one data row per value.  A
failing iteration propagates its error (the model keeps the global state
from before the failing step; no claim reads it after an error). -/
def scanLoop (fit : String → List (String × ℚ) → List Q3 → List ℤ)
    (m : MetricOracle) : Inst → List ℚ → Inst × Except ScanErr (List (List Cell))
  | g, [] => (g, .ok [])
  | g, e :: rest =>
    match scanStep fit m g e with
    | .error err => (g, .error err)
    | .ok (g2, avg) =>
      match scanLoop fit m g2 rest with
      | (g3, .error err) => (g3, .error err)
      | (g3, .ok rows) => (g3, .ok ((Cell.num e :: avgRow avg) :: rows))

/-- NeutronClusteringMCTruth.scan_eps_values.  The receiver is the instance
the method was invoked on; the clustering and scoring calls inside the loop
go through the module-level global neutron_clustering object instead, here
the glob slot.  num_steps = int((range_end - range_start)/step); the
eps values are range_start + ii*step; the logging line indexes
eps_values[0] and eps_values[-1] and raises IndexError on an empty list;
otherwise a header row plus one data row per value is written.  Returns the
table (or error) together with the final receiver and global states. -/
def scan_eps_values (fit : String → List (String × ℚ) → List Q3 → List ℤ)
    (m : MetricOracle) (receiver glob : Inst) (r0 r1 step : ℚ) :
    Except ScanErr (List (List Cell)) × Inst × Inst :=
  let num_steps := truncQ ((r1 - r0) / step)
  let eps_values := (List.range num_steps.toNat).map (fun ii : ℕ => r0 + (ii : ℚ) * step)
  if eps_values.isEmpty then (.error .indexError, receiver, glob)
  else
    match scanLoop fit m glob eps_values with
    | (g2, .error e) => (.error e, receiver, g2)
    | (g2, .ok rows) => (.ok (headerRow :: rows), receiver, g2)

/-- A completed scan loop yields one data row per eps value, each led by
that value. -/
lemma scanLoop_ok_shape (fit : String → List (String × ℚ) → List Q3 → List ℤ)
    (m : MetricOracle) (es : List ℚ) :
    ∀ (g g2 : Inst) (rows : List (List Cell)),
      scanLoop fit m g es = (g2, .ok rows) →
      rows.length = es.length ∧
      ∀ i, (hi : i < es.length) → ∃ avg : AvgScores,
        rows[i]? = some (Cell.num es[i] :: avgRow avg) := by
  induction es with
  | nil =>
    intro g g2 rows h
    rw [scanLoop, Prod.mk.injEq] at h
    obtain ⟨-, hok⟩ := h
    injection hok with hrows
    subst hrows
    refine ⟨rfl, ?_⟩
    intro i hi
    exact absurd hi (by simp)
  | cons e rest ih =>
    intro g g2 rows h
    rw [scanLoop] at h
    cases hstep : scanStep fit m g e with
    | error err =>
      simp only [hstep, Prod.mk.injEq] at h
      exact Except.noConfusion h.2
    | ok ga =>
      obtain ⟨g3, avg⟩ := ga
      cases hrec : scanLoop fit m g3 rest with
      | mk g4 exc =>
        cases exc with
        | error err =>
          simp only [hstep, hrec, Prod.mk.injEq] at h
          exact Except.noConfusion h.2
        | ok rows2 =>
          simp only [hstep, hrec, Prod.mk.injEq] at h
          obtain ⟨-, hok⟩ := h
          injection hok with hrows
          subst hrows
          obtain ⟨hlen, hidx⟩ := ih g3 g4 rows2 hrec
          refine ⟨by simp [hlen], ?_⟩
          intro i hi
          cases i with
          | zero => exact ⟨avg, by simp⟩
          | succ j =>
            have hj : j < rest.length := by simpa using hi
            obtain ⟨avg2, ha⟩ := hidx j hj
            exact ⟨avg2, by simpa using ha⟩

/-- C8: scan_eps_values drives cluster and calc_scores through the
module-level global neutron_clustering object, never through the receiving
instance, so a receiver distinct from that global keeps its
cluster_predictions and cluster_scores unchanged by the whole scan. -/
theorem scan_leaves_receiver_unchanged
    (fit : String → List (String × ℚ) → List Q3 → List ℤ) (m : MetricOracle)
    (receiver glob : Inst) (r0 r1 step : ℚ) :
    (scan_eps_values fit m receiver glob r0 r1 step).2.1 = receiver
    ∧ ((scan_eps_values fit m receiver glob r0 r1 step).2.1).cluster_predictions =
        receiver.cluster_predictions
    ∧ ((scan_eps_values fit m receiver glob r0 r1 step).2.1).cluster_scores =
        receiver.cluster_scores := by
  have h : (scan_eps_values fit m receiver glob r0 r1 step).2.1 = receiver := by
    simp only [scan_eps_values]
    split
    · rfl
    · split <;> rfl
  exact ⟨h, by rw [h], by rw [h]⟩

/-- C6 counterexample: scanning the empty range [1, 1) with step 1 does not
emit a header-only table; the logging access eps_values[0] raises an
IndexError, refuting the claim for every range with int((end-start)/step)
equal to zero. -/
theorem scan_empty_range_raises :
    (scan_eps_values fitMod2 mZero instDemo instDemo 1 1 1).1 = .error .indexError := by
  have htrunc : truncQ (((1 : ℚ) - 1) / 1) = 0 := by norm_num [truncQ]
  simp only [scan_eps_values]
  rw [htrunc]
  rfl

/-- C6 (amended): whenever the scan completes (hence the range holds at
least one value and every iteration scores successfully), the emitted table
has the header row first, naming the swept parameter and the six metrics in
the fixed order, followed by exactly int((range_end - range_start)/step)
data rows, the i-th led by the evenly spaced value range_start + i*step. -/
theorem scan_table_shape (fit : String → List (String × ℚ) → List Q3 → List ℤ)
    (m : MetricOracle) (receiver glob : Inst) (r0 r1 step : ℚ)
    (table : List (List Cell))
    (h : (scan_eps_values fit m receiver glob r0 r1 step).1 = .ok table) :
    table.length = (truncQ ((r1 - r0) / step)).toNat + 1
    ∧ table.head? = some headerRow
    ∧ ∀ i, i < (truncQ ((r1 - r0) / step)).toNat →
        ∃ avg : AvgScores,
          table[i + 1]? = some (Cell.num (r0 + (i : ℚ) * step) :: avgRow avg) := by
  by_cases hempty : ((List.range (truncQ ((r1 - r0) / step)).toNat).map
      (fun ii : ℕ => r0 + (ii : ℚ) * step)).isEmpty
  · have herr : (scan_eps_values fit m receiver glob r0 r1 step).1 = .error .indexError := by
      simp only [scan_eps_values]
      rw [if_pos hempty]
    rw [herr] at h
    exact Except.noConfusion h
  · cases hloop : scanLoop fit m glob ((List.range (truncQ ((r1 - r0) / step)).toNat).map
        (fun ii : ℕ => r0 + (ii : ℚ) * step)) with
    | mk g2 exc =>
      cases exc with
      | error e =>
        have herr : (scan_eps_values fit m receiver glob r0 r1 step).1 = .error e := by
          simp only [scan_eps_values]
          rw [if_neg hempty, hloop]
        rw [herr] at h
        exact Except.noConfusion h
      | ok rows =>
        have hres : (scan_eps_values fit m receiver glob r0 r1 step).1 =
            .ok (headerRow :: rows) := by
          simp only [scan_eps_values]
          rw [if_neg hempty, hloop]
        rw [hres] at h
        injection h with htab
        subst htab
        obtain ⟨hlen, hidx⟩ := scanLoop_ok_shape fit m _ glob g2 rows hloop
        have hval : ((List.range (truncQ ((r1 - r0) / step)).toNat).map
            (fun ii : ℕ => r0 + (ii : ℚ) * step)).length =
            (truncQ ((r1 - r0) / step)).toNat := by simp
        refine ⟨by simp [hlen, hval], rfl, ?_⟩
        intro i hi
        have hi2 : i < ((List.range (truncQ ((r1 - r0) / step)).toNat).map
            (fun ii : ℕ => r0 + (ii : ℚ) * step)).length := by rw [hval]; exact hi
        obtain ⟨avg, ha⟩ := hidx i hi2
        refine ⟨avg, ?_⟩
        have hesi : ((List.range (truncQ ((r1 - r0) / step)).toNat).map
            (fun ii : ℕ => r0 + (ii : ℚ) * step))[i] = r0 + (i : ℚ) * step := by
          simp
        rw [hesi] at ha
        simpa using ha

/-- C6 witness: scanning [1, 5) with step 1 on a concrete dataset completes
and produces exactly 4 data rows plus the header row. -/
theorem scan_table_shape_witness :
    ∃ table : List (List Cell),
      (scan_eps_values fitMod2 mZero instDemo instDemo 1 5 1).1 = .ok table
      ∧ table.length = 5 ∧ table.head? = some headerRow := by
  have htrunc : truncQ (((5 : ℚ) - 1) / 1) = 4 := by norm_num [truncQ]
  have hok : ∃ table : List (List Cell),
      (scan_eps_values fitMod2 mZero instDemo instDemo 1 5 1).1 = .ok table := by
    simp only [scan_eps_values]
    rw [htrunc]
    exact ⟨_, rfl⟩
  obtain ⟨table, htab⟩ := hok
  obtain ⟨hlen, hhead, -⟩ := scan_table_shape fitMod2 mZero instDemo instDemo 1 5 1 table htab
  rw [htrunc] at hlen
  exact ⟨table, htab, by simpa using hlen, hhead⟩
